import Mathlib

/-!
Verification of the release-planning core of the Back_Release_Project backend.

The definitions below are shallow embeddings of the Python services in
`backend/api/services/`:

* `DependencyService` embeds the line-merging step of
  `dependency_service.py::DependencyService._ask_gemini`;
* `ReleaseBacklog` embeds the validation/fallback step of
  `release_backlog_service.py::ReleaseBacklogService.generate_backlog`;
* `ReleasePlanning` embeds `release_planning_service.py`:
  `_check_and_fix_duplicate_stories`, `_validate_generated_plan_viability`,
  the post-generation merge in `generate_release_plan`, and the response
  extractor `_clean_ai_response`.

Machine integers are embedded as `Nat` (story points, percentages and date
ordinals are non-negative in the source); fallible paths return `Except` or a
structured result type mirroring the Python dictionaries.  The file is laid
out as a definitions section followed by a theorems section.
-/

namespace DependencyService

/-- The `to` field of one parsed JSON line of the Gemini answer inside
`_ask_gemini`.  The source reads `j["to"]`; a JSON string is later coerced to a
one-element list, a JSON array of strings is used as is, and any other shape
makes `set.update(to_lst)` raise so the line is dropped by the surrounding
`except` — constructor `bad` stands for those shapes. -/
inductive ToVal where
  | s (v : String)
  | arr (l : List String)
  | bad
deriving DecidableEq, Repr

/-- One successfully `json.loads`-ed line `{"frm": ..., "to": ...}` of the
model output in `_ask_gemini` (the source field named `to` is a Lean keyword,
hence `toCodes` here). -/
structure DepRec where
  frm : String
  toCodes : ToVal
deriving DecidableEq, Repr

/-- What one record contributes to the dependent set stored under key `k` of
the `bucket` dictionary: `bucket.setdefault(frm, set()).update(to_lst)` after
the string-to-singleton coercion.  A record with a different `frm`, or whose
`to` field raises in `update`, contributes nothing to key `k`. -/
def recContribution (k : String) (r : DepRec) : Finset String :=
  if r.frm = k then
    match r.toCodes with
    | .s v => {v}
    | .arr l => l.toFinset
    | .bad => ∅
  else ∅

/-- The dependent set accumulated under key `k` after folding all parsed
records into `bucket`, exactly as the `for line in raw.splitlines()` loop does
(Python sets: union, no duplicates). -/
def mergedSet (recs : List DepRec) (k : String) : Finset String :=
  recs.foldl (fun acc r => acc ∪ recContribution k r) ∅

/-- The two concrete records of property P1 of the specification. -/
def recBC : DepRec := ⟨"A", .arr ["B", "C"]⟩

def recCD : DepRec := ⟨"A", .arr ["C", "D"]⟩

end DependencyService

namespace ReleaseBacklog

/-- The projection of a user-story document that `generate_backlog` loads
(`{"code": 1, "nombre": 1, "descripcion": 1}`). -/
structure BStory where
  code : String
  nombre : String
  descripcion : String
deriving DecidableEq, Repr

/-- Insertion of one code into an alphabetically sorted list; `sortAlpha`
embeds Python's `sorted(...)` on the story codes (lexicographic string
order). -/
def insertSorted (c : String) : List String → List String
  | [] => [c]
  | x :: xs => if c ≤ x then c :: x :: xs else x :: insertSorted c xs

def sortAlpha (l : List String) : List String := l.foldr insertSorted []

/-- The validation/fallback step of `generate_backlog` (steps after the
Gemini call): raise 404 when the project has no stories; keep only generated
codes that belong to the project (`valid_backlog_codes`); if that subset is
empty, substitute all project codes sorted alphabetically.  The persisted
`us_codes` list is exactly the returned value. -/
def generateBacklogCodes (stories : List BStory) (generated : List String) :
    Except Nat (List String) :=
  if stories = [] then .error 404
  else
    let existing := stories.map (·.code)
    let valid := generated.filter (fun c => decide (c ∈ existing))
    if valid = [] then .ok (sortAlpha (stories.map (·.code)))
    else .ok valid

end ReleaseBacklog

namespace ReleasePlanning

/-- One story entry inside a sprint of the AI-generated release plan.  In the
source this is an arbitrary JSON object; the repair logic reads
`story.get("code")` (possibly absent — `none` — or the empty string, both
falsy in Python) and `story.get("story_points", 0)`.  `name`, `priority` and
`dependencies` are carried along untouched. -/
structure PlanStory where
  code : Option String
  name : String
  story_points : Nat
  priority : String
  dependencies : List String
deriving DecidableEq, Repr, Inhabited

/-- One sprint of the generated plan.  `end_date` models the parsed
`datetime.fromisoformat(...)` value as a day ordinal; `none` stands for a
missing or unparseable `end_date` string. -/
structure Sprint where
  sprint_number : Nat
  end_date : Option Nat
  story_points_planned : Nat
  capacity_used_percentage : Nat
  stories : List PlanStory
deriving DecidableEq, Repr, Inhabited

/-- A `risks` entry of the plan. -/
structure Risk where
  level : String
  description : String
  mitigation : String
deriving DecidableEq, Repr, Inhabited

/-- The `project_analysis` block of the plan (the fields the validation code
touches). -/
structure ProjectAnalysis where
  target_date_feasible : Bool
  recommended_adjustments : List String
deriving DecidableEq, Repr, Inhabited

/-- A parsed release plan.  `project_analysis` is `none` when the generated
JSON has no such key (`if "project_analysis" in release_plan`). -/
structure Plan where
  project_analysis : Option ProjectAnalysis
  sprints : List Sprint
  risks : List Risk
  recommendations : List String
deriving DecidableEq, Repr, Inhabited

/-- A user story of the project as `_get_project_stories` formats it (the
fields the planning code reads). -/
structure UserStory where
  code : String
  nombre : String
  story_points : Nat
  priority : String
deriving DecidableEq, Repr, Inhabited

/-- The project configuration fields read by plan generation/validation.
`release_target_date` is the parsed target date as a day ordinal, `none` when
missing or unparseable. -/
structure ProjectConfig where
  num_devs : Nat
  team_velocity : Nat
  sprint_duration : Nat
  release_target_date : Option Nat
deriving DecidableEq, Repr, Inhabited

/-- Sum of `story.get("story_points", 0)` over a story list. -/
def sumPoints (l : List PlanStory) : Nat := (l.map (·.story_points)).sum

/-- The percentage `min(100, int((total_sp / team_velocity) * 100)) if
team_velocity > 0 else 0` as computed inside `_check_and_fix_duplicate_stories`, where
`team_velocity = 30` is hardcoded ("Valor por defecto, se puede hacer
configurable").  The source divides in floating point and truncates with
`int()`; for the integer story-point sums involved this is flooring, i.e.
`Nat` division. -/
def capacityPct (totalSp : Nat) : Nat :=
  let team_velocity := 30
  if team_velocity > 0 then min 100 (totalSp * 100 / team_velocity) else 0

/-- The state threaded through the duplicate scan: `seen` are the keys of
`story_codes_in_plan` in insertion order, `dups` the codes recorded in
`duplicates_found` (the source also records the two sprint numbers; only the
code matters to the claims). -/
structure FixState where
  seen : List String
  dups : List String
deriving DecidableEq, Repr, Inhabited

/-- The inner `for story in sprint.get("stories", [])` loop of
`_check_and_fix_duplicate_stories`: stories with a falsy code (`None` or `""`)
are skipped, a story whose code was already seen is dropped and recorded as a
duplicate, and a first occurrence is kept and its code remembered. -/
def fixStories (st : FixState) : List PlanStory → FixState × List PlanStory
  | [] => (st, [])
  | s :: rest =>
    match s.code with
    | none => fixStories st rest
    | some c =>
      if c = "" then fixStories st rest
      else if c ∈ st.seen then
        fixStories { st with dups := st.dups ++ [c] } rest
      else
        let r := fixStories { st with seen := st.seen ++ [c] } rest
        (r.1, s :: r.2)

/-- One iteration of the outer sprint loop: filter the stories, then recompute
`story_points_planned` and `capacity_used_percentage` from the remaining
stories. -/
def fixSprint (st : FixState) (sp : Sprint) : FixState × Sprint :=
  let r := fixStories st sp.stories
  let total := sumPoints r.2
  (r.1, { sp with stories := r.2, story_points_planned := total,
                  capacity_used_percentage := capacityPct total })

/-- The outer `for sprint in release_plan["sprints"]` loop building
`corrected_sprints`. -/
def fixSprints (st : FixState) : List Sprint → FixState × List Sprint
  | [] => (st, [])
  | sp :: rest =>
    let r := fixSprint st sp
    let r2 := fixSprints r.1 rest
    (r2.1, r.2 :: r2.2)

/-- Conversion of an original user story to the plan format when it is
re-added to the last sprint (`plan_story = {...}` with empty
dependencies). -/
def toPlanStory (s : UserStory) : PlanStory :=
  { code := some s.code, name := s.nombre, story_points := s.story_points,
    priority := s.priority, dependencies := [] }

/-- Replace the last element of a list in place (the source mutates
`corrected_sprints[-1]`). -/
def updateLast (f : Sprint → Sprint) : List Sprint → List Sprint
  | [] => []
  | [sp] => [f sp]
  | sp :: rest => sp :: updateLast f rest

/-- The set `missing_codes = all_story_codes - included_codes`: the Python value is a
set; it is embedded as a duplicate-free list (set iteration order is
unspecified in Python, so no claim depends on the order of this list). -/
def missingCodes (stories : List UserStory) (included : List String) :
    List String :=
  ((stories.map (·.code)).filter (fun c => decide (c ∉ included))).dedup

/-- The stories appended to the last sprint for the missing codes: for each
missing code the first original story with that code is converted
(`next((s for s in user_stories if s["code"] == missing_code), None)`). -/
def appendedStories (stories : List UserStory) (missing : List String) :
    List PlanStory :=
  missing.filterMap (fun c =>
    (stories.find? (fun s => decide (s.code = c))).map toPlanStory)

/-- Appending the converted missing stories to one sprint and recomputing its
totals (`last_sprint["stories"].append(...)` followed by the recomputation of
`story_points_planned` and `capacity_used_percentage`). -/
def appendToSprint (app : List PlanStory) (sp : Sprint) : Sprint :=
  let sts := sp.stories ++ app
  { sp with stories := sts, story_points_planned := sumPoints sts,
            capacity_used_percentage := capacityPct (sumPoints sts) }

/-- The missing-code pass of `_check_and_fix_duplicate_stories`: when some
project codes are absent from the deduplicated plan and the plan has at least
one sprint, append them to the last sprint and recompute that sprint's totals
(the source recomputes after each append; only the final values are
observable). -/
def appendMissing (stories : List UserStory) (included : List String)
    (sprints : List Sprint) : List Sprint :=
  let missing := missingCodes stories included
  if missing = [] then sprints
  else
    updateLast (appendToSprint (appendedStories stories missing)) sprints

/-- The dictionary returned by `_check_and_fix_duplicate_stories`. -/
structure DupCheck where
  duplicates_found : Bool
  duplicates : List String
  corrected_plan : Plan
deriving DecidableEq, Repr, Inhabited

/-- Embedding of `_check_and_fix_duplicate_stories(release_plan, user_stories)`.  (The
guard returning the plan unchanged when it is falsy or lacks a `"sprints"`
key has no counterpart here because a `Plan` value always carries its sprint
list; a keyless plan corresponds to `sprints = []`, on which the body below
is also the identity.) -/
def checkAndFixDuplicateStories (plan : Plan) (stories : List UserStory) :
    DupCheck :=
  let r := fixSprints ⟨[], []⟩ plan.sprints
  let finalSprints := appendMissing stories r.1.seen r.2
  { duplicates_found := decide (r.1.dups ≠ []),
    duplicates := r.1.dups,
    corrected_plan := { plan with sprints := finalSprints } }

/-- The dictionary returned by `_validate_generated_plan_viability`. -/
structure Viability where
  is_viable : Bool
  issues : List String
  recommendations : List String
  risks : List Risk
deriving DecidableEq, Repr, Inhabited

/-- The CRITICAL risk appended when the generated plan overruns the target
date by `daysOver` days. -/
def criticalRisk (daysOver : Nat) : Risk :=
  { level := "CRITICAL",
    description := "Fecha límite excedida por " ++ toString daysOver ++
      " días - proyecto destinado al fracaso",
    mitigation := "Negociar extensión de fecha límite con stakeholders" }

/-- The MEDIUM risk built for a plan that ends exactly on the target date. -/
def mediumRisk : Risk :=
  { level := "MEDIUM",
    description :=
      "Proyecto termina exactamente en la fecha límite - sin margen de error",
    mitigation := "Agregar buffer de al menos 1-2 semanas" }

/-- Embedding of `_validate_generated_plan_viability(release_plan, project_config)`: no
sprints ⇒ not viable (empty risk list); a missing/unparseable end or target
date ⇒ viable with no annotations; otherwise compare the last sprint's end
date with the target date. -/
def validateGeneratedPlanViability (plan : Plan) (config : ProjectConfig) :
    Viability :=
  match plan.sprints.getLast? with
  | none =>
    { is_viable := false, issues := ["Plan de release no generado"],
      recommendations := ["Vuelva a generar el plan"], risks := [] }
  | some last =>
    match config.release_target_date, last.end_date with
    | some t, some e =>
      if t < e then
        let daysOver := e - t
        { is_viable := false,
          issues := ["Proyecto termina " ++ toString daysOver ++ " días (" ++
            toString (daysOver / 7) ++
            " semanas) después de la fecha límite"],
          recommendations :=
            ["Reducir el alcance del proyecto o extender la fecha objetivo",
             "Aumentar la velocidad del equipo",
             "Reorganizar las historias en los sprints"],
          risks := [criticalRisk daysOver] }
      else if e = t then
        { is_viable := true, issues := [],
          recommendations :=
            ["Proyecto ajustado justo a la fecha límite - considere buffer adicional"],
          risks := [mediumRisk] }
      else
        { is_viable := true, issues := [], recommendations := [], risks := [] }
    | _, _ =>
      { is_viable := true, issues := [], recommendations := [], risks := [] }

/-- The merge step of `generate_release_plan` (lines 166–182): only when the
viability check said "not viable" are the computed risks/recommendations
copied into the plan and `target_date_feasible` forced to `False` (the latter
only when the plan has a `project_analysis` block). -/
def applyViability (plan : Plan) (v : Viability) : Plan :=
  if v.is_viable then plan
  else
    { plan with
      project_analysis := plan.project_analysis.map (fun pa =>
        { pa with target_date_feasible := false,
                  recommended_adjustments :=
                    pa.recommended_adjustments ++ v.recommendations }),
      risks := plan.risks ++ v.risks,
      recommendations := plan.recommendations ++ v.recommendations }

/-- An HTTP error as raised by `HTTPException(status_code, detail)`. -/
structure Http where
  status : Nat
  detail : String
deriving DecidableEq, Repr, Inhabited

/-- Outcome of `_generate_plan_with_ai`: a parsed plan, or an
`HTTPException(500, ...)` when the response is unparseable or an error
object. -/
inductive AIResult where
  | ok (p : Plan)
  | fail (e : Http)
deriving DecidableEq, Repr, Inhabited

/-- The count `total_stories_in_plan`: `sum(len(sprint.get("stories", [])) for sprint in
release_plan["sprints"])` — duplicates and unknown codes all count. -/
def totalStoriesInPlan (p : Plan) : Nat :=
  (p.sprints.map (fun sp => sp.stories.length)).sum

/-- The recommendation appended when duplicates were corrected. -/
def addDupRecommendation (p : Plan) : Plan :=
  { p with recommendations := p.recommendations ++
      ["Se corrigieron historias duplicadas en el plan generado"] }

/-- The completeness check and single regeneration attempt: when the plan
contains fewer story entries than the project has stories, the plan is
regenerated once; `_regenerate_complete_plan` returns the reparsed plan on
success and the original partial plan on any failure, modelled by the
`regen : Option Plan` parameter. -/
def planAfterRegen (plan0 : Plan) (storyCount : Nat) (regen : Option Plan) :
    Plan :=
  if totalStoriesInPlan plan0 < storyCount then regen.getD plan0 else plan0

/-- The plan after the viability merge, i.e. the value of `release_plan` just
before the duplicate check inside `generate_release_plan`. -/
def planBeforeDupCheck (config : ProjectConfig) (stories : List UserStory)
    (plan0 : Plan) (regen : Option Plan) : Plan :=
  let plan1 := planAfterRegen plan0 stories.length regen
  applyViability plan1 (validateGeneratedPlanViability plan1 config)

/-- The body of `generate_release_plan` (the code inside its `try`), from the
two precondition checks to the plan that is persisted and returned.  The two
AI calls are parameters: `ai` is the outcome of `_generate_plan_with_ai` and
`regen` the outcome of the (at most one) regeneration.  Note that the
corrected plan of the duplicate check is used only when duplicates were
actually found. -/
def generateReleasePlanBody (config? : Option ProjectConfig)
    (stories : List UserStory) (ai : AIResult) (regen : Option Plan) :
    Except Http Plan :=
  match config? with
  | none =>
    .error ⟨404,
      "Configuración del proyecto no encontrada. Configure el proyecto primero."⟩
  | some config =>
    if stories = [] then
      .error ⟨404, "No se encontraron historias de usuario para este proyecto."⟩
    else
      match ai with
      | .fail e => .error e
      | .ok plan0 =>
        let plan2 := planBeforeDupCheck config stories plan0 regen
        let dc := checkAndFixDuplicateStories plan2 stories
        if dc.duplicates_found then .ok (addDupRecommendation dc.corrected_plan)
        else .ok plan2

/-- Embedding of `generate_release_plan` as observed by the caller: the whole body runs
inside `try: ... except Exception as e:` which re-raises *any* exception —
including the deliberately raised `HTTPException(404, ...)` — as
`HTTPException(500, f"Error generando plan de release: {str(e)}")`
(`str` of a Starlette `HTTPException` is `"{status_code}: {detail}"`). -/
def generateReleasePlan (config? : Option ProjectConfig)
    (stories : List UserStory) (ai : AIResult) (regen : Option Plan) :
    Except Http Plan :=
  match generateReleasePlanBody config? stories ai regen with
  | .ok p => .ok p
  | .error e =>
    .error ⟨500, "Error generando plan de release: " ++ toString e.status ++
      ": " ++ e.detail⟩

/-- Number of stories carrying code `c` in a story list. -/
def countC (c : String) (l : List PlanStory) : Nat :=
  l.countP (fun s => decide (s.code = some c))

/-- Number of stories carrying code `c` across all sprints of a plan. -/
def countCS (c : String) (sprints : List Sprint) : Nat :=
  (sprints.map (fun sp => countC c sp.stories)).sum

/-- The first story carrying code `c` in sprint-major order. -/
def firstStory (c : String) (sprints : List Sprint) : Option PlanStory :=
  ((sprints.map (fun sp => sp.stories)).flatten).find?
    (fun s => decide (s.code = some c))

end ReleasePlanning

namespace ReleasePlanning

/-- The structured error object built by `_clean_ai_response` when it cannot
recover JSON: the common fields of the two `json.dumps({...})` error returns
(`error`, `error_details`, `response_length`, and the bounded
`json_preview`/`response_preview`; the remaining purely diagnostic fields —
`json_length`, `markdown_blocks_found`, `has_markdown`, `has_json_start` —
are not modelled). -/
structure CleanError where
  error : String
  error_details : String
  response_length : Nat
  preview : List Char
deriving DecidableEq, Repr, Inhabited

/-- Result of `_clean_ai_response`: an extracted JSON text, a full structured
error object, or — for empty/whitespace-only input — the bare
`{"error": "Respuesta vacía de la IA"}` object which carries no other
field. -/
inductive CleanResult where
  | json (content : List Char)
  | errorFull (e : CleanError)
  | errorEmpty (tag : String)
deriving DecidableEq, Repr, Inhabited

/-- Python `str.strip()` (both ends). -/
def stripWs (s : List Char) : List Char :=
  ((s.dropWhile Char.isWhitespace).reverse.dropWhile Char.isWhitespace).reverse

/-- Python `s.find(pat, i)` scanning positions `i, i+1, …, len(s)`; fuel is the
number of positions left to inspect, so the function is structurally
recursive and kernel-reducible. -/
def findFromAux (s pat : List Char) : Nat → Nat → Option Nat
  | _, 0 => none
  | i, fuel + 1 =>
    if pat.isPrefixOf (s.drop i) then some i
    else findFromAux s pat (i + 1) fuel

/-- Python `str.find(pat, i)` returning `none` for `-1`. -/
def findFrom (s pat : List Char) (i : Nat) : Option Nat :=
  findFromAux s pat i (s.length + 1 - i)

/-- The `while True` loops collecting fenced blocks: find `pat` (either
"```json" or "```", of length `patLen`) from `start`, then the closing "```"
from just after the opening marker, record `(start, end+3)` and continue
after the block.  The source loop terminates because the search position
strictly increases; `fuel = len(s) + 1` makes that structural. -/
def scanBlocks (s pat : List Char) (patLen : Nat) : Nat → Nat → List (Nat × Nat)
  | _, 0 => []
  | start, fuel + 1 =>
    match findFrom s pat start with
    | none => []
    | some b =>
      match findFrom s ("```".data) (b + patLen) with
      | none => []
      | some e => (b, e + 3) :: scanBlocks s pat patLen (e + 3) fuel

/-- Python slice `s[a:b]`. -/
def sliceChars (s : List Char) (a b : Nat) : List Char :=
  (s.drop a).take (b - a)

/-- Python `s.lower()` on the character list. -/
def lowerChars (s : List Char) : List Char := s.map Char.toLower

/-- Python `s.split('\n')`. -/
def splitNl : List Char → List (List Char)
  | [] => [[]]
  | c :: rest =>
    match splitNl rest with
    | [] => [[c]]
    | h :: t => if c = '\n' then [] :: h :: t else (c :: h) :: t

/-- Inverse of `splitNl`: `'\n'.join(lines)`. -/
def joinNl : List (List Char) → List Char
  | [] => []
  | l :: rest => rest.foldl (fun acc x => acc ++ '\n' :: x) l

/-- The `while lines and not lines[0].strip(): lines.pop(0)` /
`while lines and not lines[-1].strip(): lines.pop()` cleanup. -/
def dropBlankEdges (content : List Char) : List Char :=
  let lines := splitNl content
  let lines := lines.dropWhile (fun l => decide (stripWs l = []))
  let lines := (lines.reverse.dropWhile (fun l => decide (stripWs l = []))).reverse
  joinNl lines

/-- A character matched by the control-character regex
`[\x00-\x1f\x7f-\x9f]`. -/
def isCtl (c : Char) : Bool :=
  decide (c.toNat ≤ 31) || (decide (127 ≤ c.toNat) && decide (c.toNat ≤ 159))

/-- The cleanup `re.sub(r'[\x00-\x1f\x7f-\x9f]', '', content)`. -/
def stripCtl (s : List Char) : List Char := s.filter (fun c => !(isCtl c))

/-- Removing the opening marker (```json case-insensitively, else ```), then
a trailing ``` if present. -/
def dropFenceMarkers (content : List Char) : List Char :=
  let c1 :=
    if ("```json".data).isPrefixOf (lowerChars content) then content.drop 7
    else if ("```".data).isPrefixOf content then content.drop 3
    else content
  if ("```".data).isSuffixOf c1 then c1.take (c1.length - 3) else c1

/-- Processing of the last fenced block found (positions `a`, `b` into the
stripped response `s`): extract, strip markers and noise, then try to parse;
on failure try the trailing-comma repair then the other-repairs pass, both
abstracted as the `fixA`/`fixB` parameters (regex-based string surgery whose
exact output the claims do not depend on; `fixB` starts again from the
unrepaired content, as the source does).  `parseOk` abstracts
`json.loads` succeeding. -/
def processBlock (parseOk : List Char → Bool) (fixA fixB : List Char → List Char)
    (s : List Char) (a b : Nat) : CleanResult :=
  let content0 := stripWs (sliceChars s a b)
  let content1 := dropFenceMarkers content0
  let content2 := dropBlankEdges (stripWs content1)
  let content := stripCtl content2
  if parseOk content then .json content
  else if parseOk (fixA content) then .json (fixA content)
  else if parseOk (fixB content) then .json (fixB content)
  else
    .errorFull
      { error := "La IA no devolvió un JSON válido",
        error_details := "JSON extraído del markdown no válido",
        response_length := s.length,
        preview := content.take 300 ++
          (if 300 < content.length then "...".data else []) }

/-- The "ÚLTIMO RECURSO" error return. -/
def lastResort (s : List Char) : CleanResult :=
  .errorFull
    { error := "La IA no devolvió un JSON válido",
      error_details := "No se pudo extraer JSON válido de la respuesta",
      response_length := s.length,
      preview := s.take 500 ++ (if 500 < s.length then "...".data else []) }

/-- Index of the first occurrence of `c` (Python `str.find(c)`). -/
def firstIdxAux (c : Char) : List Char → Nat → Option Nat
  | [], _ => none
  | x :: xs, i => if x = c then some i else firstIdxAux c xs (i + 1)

def firstIdx (s : List Char) (c : Char) : Option Nat := firstIdxAux c s 0

/-- Index of the last occurrence of `c` (Python `str.rfind(c)`). -/
def lastIdx (s : List Char) (c : Char) : Option Nat :=
  match firstIdx s.reverse c with
  | none => none
  | some k => some (s.length - 1 - k)

/-- The direct-JSON fallback when no complete fenced block exists: take the
substring from the first `\x7b` to the last `\x7d` (exclusive bounds checked
as in the source: both present and `end_brace > start_brace`) and keep it if
it parses, else the last-resort error. -/
def directSearch (parseOk : List Char → Bool) (s : List Char) : CleanResult :=
  match firstIdx s (Char.ofNat 123), lastIdx s (Char.ofNat 125) with
  | some sb, some eb =>
    if sb < eb then
      let pot := sliceChars s sb (eb + 1)
      if parseOk pot then .json pot else lastResort s
    else lastResort s
  | _, _ => lastResort s

/-- Embedding of `_clean_ai_response(response_text)`: empty or whitespace-only input yields
the bare error object; otherwise the input is stripped, fenced blocks are
located on the lowercased text ("```json" blocks first, plain "```" blocks
only if none), the *last* block is processed, and when no complete block
exists the direct-JSON search runs. -/
def cleanAiResponse (parseOk : List Char → Bool)
    (fixA fixB : List Char → List Char) (raw : List Char) : CleanResult :=
  if stripWs raw = [] then .errorEmpty "Respuesta vacía de la IA"
  else
    let s := stripWs raw
    let low := lowerChars s
    let blocks :=
      if (findFrom low ("```".data) 0).isSome then
        let jb := scanBlocks low ("```json".data) 7 0 (s.length + 1)
        if jb = [] then scanBlocks low ("```".data) 3 0 (s.length + 1) else jb
      else []
    match blocks.getLast? with
    | some (a, b) => processBlock parseOk fixA fixB s a b
    | none => directSearch parseOk s

end ReleasePlanning

namespace ReleasePlanning

/-- Concrete inputs used to evaluate the embedded pipeline at specific
points. -/
def exStoryA : UserStory := ⟨"A", "Historia A", 7, "HIGH"⟩

/-- A project configuration with a *configured* team velocity of 10 and no
target date. -/
def exCfgV10 : ProjectConfig := ⟨2, 10, 2, none⟩

/-- A project configuration with a target date (day ordinal `t`). -/
def exCfgTarget (t : Nat) : ProjectConfig := ⟨2, 10, 2, some t⟩

/-- A plan story with code `A` and 7 points. -/
def exPsA : PlanStory := ⟨some "A", "Historia A", 7, "HIGH", []⟩

/-- A second plan story with code `A` (a duplicate) and 8 points. -/
def exPsA2 : PlanStory := ⟨some "A", "Historia A bis", 8, "HIGH", []⟩

/-- A plan story whose code `X` does not belong to the project. -/
def exPsX : PlanStory := ⟨some "X", "Historia X", 3, "HIGH", []⟩

/-- A generated plan holding only the unknown code `X`. -/
def exPlanStray : Plan := ⟨none, [⟨1, none, 3, 10, [exPsX]⟩], [], []⟩

/-- A generated plan with code `A` in sprint 1 and again in sprint 2. -/
def exPlanDup : Plan :=
  ⟨none, [⟨1, none, 7, 10, [exPsA]⟩, ⟨2, none, 8, 20, [exPsA2]⟩], [], []⟩

/-- A one-sprint plan whose sprint ends on day ordinal `e` and has a
`project_analysis` block. -/
def exPlanEnd (e : Nat) : Plan :=
  ⟨some ⟨true, []⟩, [⟨1, some e, 7, 50, [exPsA]⟩], [], []⟩

/-- An arbitrary well-formed empty plan (used where the AI outcome is
irrelevant). -/
def exEmptyPlan : Plan := ⟨none, [], [], []⟩

end ReleasePlanning

/-! ## Theorems -/

namespace DependencyService

theorem foldl_contribution_acc (recs : List DepRec) (k : String)
    (acc : Finset String) :
    recs.foldl (fun a r => a ∪ recContribution k r) acc
      = acc ∪ mergedSet recs k := by
  induction recs generalizing acc with
  | nil => simp [mergedSet]
  | cons r rest ih =>
    simp only [List.foldl_cons, mergedSet] at *
    rw [ih, ih (∅ ∪ recContribution k r)]
    simp [Finset.union_assoc]

theorem mergedSet_cons (r : DepRec) (rest : List DepRec) (k : String) :
    mergedSet (r :: rest) k = recContribution k r ∪ mergedSet rest k := by
  simp only [mergedSet, List.foldl_cons]
  rw [foldl_contribution_acc]
  simp [mergedSet]

theorem mergedSet_append (l₁ l₂ : List DepRec) (k : String) :
    mergedSet (l₁ ++ l₂) k = mergedSet l₁ k ∪ mergedSet l₂ k := by
  simp only [mergedSet, List.foldl_append]
  rw [foldl_contribution_acc]
  rfl

theorem contribution_subset (k : String) :
    ∀ {recs : List DepRec} {r : DepRec}, r ∈ recs →
      recContribution k r ⊆ mergedSet recs k := by
  intro recs
  induction recs with
  | nil => intro r h; cases h
  | cons x rest ih =>
    intro r h
    rw [mergedSet_cons]
    rcases List.mem_cons.mp h with h | h
    · subst h; exact Finset.subset_union_left
    · exact (ih h).trans Finset.subset_union_right

theorem mergedSet_perm_invariant {l₁ l₂ : List DepRec} (h : l₁.Perm l₂)
    (k : String) : mergedSet l₁ k = mergedSet l₂ k := by
  induction h with
  | nil => rfl
  | cons x _ ih => rw [mergedSet_cons, mergedSet_cons, ih]
  | swap x y l =>
    rw [mergedSet_cons, mergedSet_cons, mergedSet_cons, mergedSet_cons,
      ← Finset.union_assoc, ← Finset.union_assoc,
      Finset.union_comm (recContribution k y) (recContribution k x)]
  | trans _ _ ih₁ ih₂ => rw [ih₁, ih₂]

theorem mergedSet_subset_of_all {recs : List DepRec}
    (h : ∀ r ∈ recs, r = recBC ∨ r = recCD) :
    mergedSet recs "A" ⊆ {"B", "C", "D"} := by
  induction recs with
  | nil => simp [mergedSet]
  | cons x rest ih =>
    rw [mergedSet_cons]
    apply Finset.union_subset
    · rcases h x (by simp) with hx | hx <;> subst hx <;> decide
    · exact ih (fun r hr => h r (List.mem_cons_of_mem _ hr))

/-- Claim C6: merging parsed dependency lines is a per-prerequisite set
union, independent of line order and of repetition.  First conjunct: the
merged set at every key is invariant under permutation of the parsed lines.
Second conjunct: any list of parsed lines consisting of (possibly repeated)
copies of the records `A→[B,C]` and `A→[C,D]`, with both present, merges to
exactly `A→{B,C,D}` — a set, so with no duplicate dependents. -/
theorem merge_set_union :
    (∀ (l₁ l₂ : List DepRec), l₁.Perm l₂ →
      ∀ k, mergedSet l₁ k = mergedSet l₂ k) ∧
    (∀ recs : List DepRec, (∀ r ∈ recs, r = recBC ∨ r = recCD) →
      recBC ∈ recs → recCD ∈ recs →
      mergedSet recs "A" = {"B", "C", "D"}) := by
  constructor
  · intro l₁ l₂ h k
    exact mergedSet_perm_invariant h k
  · intro recs hall hbc hcd
    apply Finset.Subset.antisymm (mergedSet_subset_of_all hall)
    intro x hx
    have h₁ : recContribution "A" recBC ⊆ mergedSet recs "A" :=
      contribution_subset _ hbc
    have h₂ : recContribution "A" recCD ⊆ mergedSet recs "A" :=
      contribution_subset _ hcd
    have hx' : x ∈ recContribution "A" recBC ∪ recContribution "A" recCD := by
      have : recContribution "A" recBC ∪ recContribution "A" recCD
          = ({"B", "C", "D"} : Finset String) := by decide
      rw [this]; exact hx
    rcases Finset.mem_union.mp hx' with h | h
    · exact h₁ h
    · exact h₂ h

/-- Witness for C6 at concrete inputs: the two records in either order (and
with a repeated line) merge to exactly `{B, C, D}`, and a concrete
permutation of lines leaves the merge unchanged. -/
theorem merge_set_union_witness :
    mergedSet [recBC, recCD] "A" = {"B", "C", "D"} ∧
    mergedSet [recCD, recBC, recBC] "A" = {"B", "C", "D"} ∧
    mergedSet [recBC, recCD] "X" = mergedSet [recCD, recBC] "X" := by
  refine ⟨?_, ?_, ?_⟩
  · exact merge_set_union.2 [recBC, recCD] (by decide)
      (by decide) (by decide)
  · exact merge_set_union.2 [recCD, recBC, recBC] (by decide)
      (by decide) (by decide)
  · exact merge_set_union.1 [recBC, recCD] [recCD, recBC]
      (List.Perm.swap recCD recBC []) "X"

/-- Claim C10: a parsed line whose `to` field is a single JSON string is not
dropped — it contributes exactly as the one-element array would, and the edge
is kept (the dependent is in the merged set for its prerequisite). -/
theorem string_to_coerced :
    ∀ (pre post : List DepRec) (a b k : String),
      mergedSet (pre ++ ⟨a, .s b⟩ :: post) k
        = mergedSet (pre ++ ⟨a, .arr [b]⟩ :: post) k ∧
      b ∈ mergedSet (pre ++ ⟨a, .s b⟩ :: post) a := by
  intro pre post a b k
  have hco : ∀ k', recContribution k' ⟨a, .s b⟩
      = recContribution k' ⟨a, .arr [b]⟩ := by
    intro k'
    simp only [recContribution]
    split
    · simp
    · rfl
  constructor
  · rw [mergedSet_append, mergedSet_append, mergedSet_cons, mergedSet_cons,
      hco]
  · rw [mergedSet_append, mergedSet_cons]
    apply Finset.mem_union_right
    apply Finset.mem_union_left
    simp [recContribution]

end DependencyService

namespace ReleaseBacklog

theorem mem_insertSorted {a c : String} :
    ∀ {l : List String}, a ∈ insertSorted c l ↔ a = c ∨ a ∈ l := by
  intro l
  induction l with
  | nil => simp [insertSorted]
  | cons x xs ih =>
    simp only [insertSorted]
    split
    · simp
    · simp only [List.mem_cons, ih]
      tauto

theorem length_insertSorted (c : String) :
    ∀ (l : List String), (insertSorted c l).length = l.length + 1 := by
  intro l
  induction l with
  | nil => rfl
  | cons x xs ih =>
    simp only [insertSorted]
    split
    · rfl
    · simp [ih]

theorem mem_sortAlpha {a : String} :
    ∀ {l : List String}, a ∈ sortAlpha l ↔ a ∈ l := by
  intro l
  induction l with
  | nil => simp [sortAlpha]
  | cons x xs ih =>
    simp only [sortAlpha, List.foldr_cons] at *
    rw [mem_insertSorted, ih]
    simp

theorem length_sortAlpha :
    ∀ (l : List String), (sortAlpha l).length = l.length := by
  intro l
  induction l with
  | nil => rfl
  | cons x xs ih =>
    simp only [sortAlpha, List.foldr_cons] at *
    rw [length_insertSorted, ih]
    rfl

/-- Claim C7: every code in a backlog produced by `generate_backlog` belongs
to the project's story-code set — codes returned by generation that are not
project codes never survive validation. -/
theorem backlog_codes_valid (stories : List BStory) (generated : List String)
    (out : List String) (c : String)
    (h : generateBacklogCodes stories generated = .ok out) (hc : c ∈ out) :
    c ∈ stories.map (·.code) := by
  unfold generateBacklogCodes at h
  split at h
  · cases h
  · dsimp only at h
    split at h
    · cases h
      exact mem_sortAlpha.mp hc
    · cases h
      have := List.mem_filter.mp hc
      exact of_decide_eq_true this.2

/-- Witness for C7: with two stories and a generated list holding one valid
and one unknown code, the unknown code is dropped and the surviving code is a
project code. -/
theorem backlog_codes_valid_witness :
    generateBacklogCodes
        [⟨"us-001", "a", "d"⟩, ⟨"us-002", "b", "d"⟩] ["us-002", "zz"]
      = .ok ["us-002"] ∧
    "us-002" ∈ ([⟨"us-001", "a", "d"⟩, ⟨"us-002", "b", "d"⟩] :
        List BStory).map (·.code) := by
  constructor
  · rfl
  · exact backlog_codes_valid
      [⟨"us-001", "a", "d"⟩, ⟨"us-002", "b", "d"⟩] ["us-002", "zz"]
      ["us-002"] "us-002" rfl (by decide)

/-- Claim C8: for a project with at least one story, `generate_backlog` never
returns an empty code list, and whenever the validated subset of the
generated codes is empty the result is all project codes sorted
alphabetically. -/
theorem backlog_nonempty_fallback (stories : List BStory)
    (generated : List String) (hs : stories ≠ []) :
    ∃ out, generateBacklogCodes stories generated = .ok out ∧ out ≠ [] ∧
      (generated.filter
          (fun c => decide (c ∈ stories.map (·.code))) = [] →
        out = sortAlpha (stories.map (·.code))) := by
  unfold generateBacklogCodes
  rw [if_neg hs]
  dsimp only
  split
  · refine ⟨_, rfl, ?_, fun _ => rfl⟩
    intro hnil
    have h1 : (sortAlpha (stories.map (·.code))).length = 0 := by
      rw [hnil]; rfl
    rw [length_sortAlpha, List.length_map] at h1
    exact hs (List.length_eq_zero.mp h1)
  · next hne =>
    exact ⟨_, rfl, hne, fun hcon => absurd hcon hne⟩

/-- Witness for C8: a single-story project with an unusable generated list
(no valid codes) falls back to the full alphabetical code list, which is
nonempty. -/
theorem backlog_nonempty_fallback_witness :
    ∃ out, generateBacklogCodes [⟨"us-001", "a", "d"⟩] ["zz"] = .ok out ∧
      out ≠ [] ∧
      (["zz"].filter
          (fun c => decide (c ∈ ([⟨"us-001", "a", "d"⟩] :
            List BStory).map (·.code))) = [] →
        out = sortAlpha (([⟨"us-001", "a", "d"⟩] :
          List BStory).map (·.code))) :=
  backlog_nonempty_fallback [⟨"us-001", "a", "d"⟩] ["zz"] (by decide)

end ReleaseBacklog

namespace ReleasePlanning

theorem countC_nil (c : String) : countC c [] = 0 := rfl

theorem countC_cons (c : String) (s : PlanStory) (rest : List PlanStory) :
    countC c (s :: rest)
      = countC c rest + (if s.code = some c then 1 else 0) := by
  simp [countC, List.countP_cons]

theorem countC_append (c : String) (l₁ l₂ : List PlanStory) :
    countC c (l₁ ++ l₂) = countC c l₁ + countC c l₂ := by
  simp [countC, List.countP_append]

theorem countCS_nil (c : String) : countCS c [] = 0 := rfl

theorem countCS_cons (c : String) (sp : Sprint) (rest : List Sprint) :
    countCS c (sp :: rest) = countC c sp.stories + countCS c rest := by
  simp [countCS]

theorem fixStories_cons_none {s : PlanStory} (hsc : s.code = none)
    (st : FixState) (rest : List PlanStory) :
    fixStories st (s :: rest) = fixStories st rest := by
  simp [fixStories, hsc]

theorem fixStories_cons_empty {s : PlanStory} (hsc : s.code = some "")
    (st : FixState) (rest : List PlanStory) :
    fixStories st (s :: rest) = fixStories st rest := by
  simp [fixStories, hsc]

theorem fixStories_cons_dup {s : PlanStory} {d : String} (hsc : s.code = some d)
    (hde : d ≠ "") {st : FixState} (hds : d ∈ st.seen)
    (rest : List PlanStory) :
    fixStories st (s :: rest)
      = fixStories { st with dups := st.dups ++ [d] } rest := by
  simp [fixStories, hsc, hde, hds]

theorem fixStories_cons_fresh {s : PlanStory} {d : String}
    (hsc : s.code = some d) (hde : d ≠ "") {st : FixState}
    (hds : d ∉ st.seen) (rest : List PlanStory) :
    fixStories st (s :: rest)
      = ((fixStories { st with seen := st.seen ++ [d] } rest).1,
         s :: (fixStories { st with seen := st.seen ++ [d] } rest).2) := by
  simp [fixStories, hsc, hde, hds]

theorem mem_seen_fixStories (c : String) :
    ∀ (l : List PlanStory) (st : FixState),
      c ∈ (fixStories st l).1.seen ↔
        c ∈ st.seen ∨ (c ≠ "" ∧ 0 < countC c l) := by
  intro l
  induction l with
  | nil => intro st; simp [fixStories, countC_nil]
  | cons s rest ih =>
    intro st
    rw [countC_cons]
    cases hsc : s.code with
    | none =>
      rw [fixStories_cons_none hsc, ih]
      simp [hsc]
    | some d =>
      by_cases hde : d = ""
      · subst hde
        rw [fixStories_cons_empty hsc, ih]
        by_cases hc : c = ""
        · subst hc; simp
        · have hne : ¬((some "" : Option String) = some c) := by
            simp [Ne.symm hc]
          simp [hne]
      · by_cases hds : d ∈ st.seen
        · rw [fixStories_cons_dup hsc hde hds, ih]
          by_cases hdc : d = c
          · subst hdc
            simp [hds]
          · have hne : ¬((some d : Option String) = some c) := by simp [hdc]
            simp [hne]
        · rw [fixStories_cons_fresh hsc hde hds, ih]
          by_cases hdc : d = c
          · subst hdc
            simp [hde, List.mem_append]
          · have hne : ¬((some d : Option String) = some c) := by simp [hdc]
            simp [hne, List.mem_append, Ne.symm hdc]

theorem countC_fixStories (c : String) (hc : c ≠ "") :
    ∀ (l : List PlanStory) (st : FixState),
      countC c (fixStories st l).2 =
        if c ∈ st.seen then 0 else min 1 (countC c l) := by
  intro l
  induction l with
  | nil =>
    intro st
    simp [fixStories, countC_nil]
  | cons s rest ih =>
    intro st
    rw [countC_cons]
    cases hsc : s.code with
    | none =>
      rw [fixStories_cons_none hsc, ih]
      simp [hsc]
    | some d =>
      by_cases hde : d = ""
      · subst hde
        rw [fixStories_cons_empty hsc, ih]
        have hne : ¬((some "" : Option String) = some c) := by
          simp [Ne.symm hc]
        simp [hne]
      · by_cases hds : d ∈ st.seen
        · rw [fixStories_cons_dup hsc hde hds, ih]
          by_cases hdc : d = c
          · subst hdc
            simp [hds]
          · have hne : ¬((some d : Option String) = some c) := by simp [hdc]
            simp [hne]
        · rw [fixStories_cons_fresh hsc hde hds]
          simp only []
          rw [countC_cons, ih]
          by_cases hdc : d = c
          · subst hdc
            have hmem : d ∈ st.seen ++ [d] := by simp
            rw [if_pos hmem, if_neg hds, hsc]
            simp
          · have hne : ¬((some d : Option String) = some c) := by simp [hdc]
            have hmem : (c ∈ st.seen ++ [d]) ↔ c ∈ st.seen := by
              simp [Ne.symm hdc]
            rw [if_congr hmem rfl rfl, hsc]
            simp [hne]

theorem fixStories_state_append :
    ∀ (l : List PlanStory) (st : FixState),
      ∃ t₁ t₂, (fixStories st l).1.seen = st.seen ++ t₁ ∧
               (fixStories st l).1.dups = st.dups ++ t₂ := by
  intro l
  induction l with
  | nil => intro st; exact ⟨[], [], by simp [fixStories], by simp [fixStories]⟩
  | cons s rest ih =>
    intro st
    cases hsc : s.code with
    | none => rw [fixStories_cons_none hsc]; exact ih st
    | some d =>
      by_cases hde : d = ""
      · subst hde; rw [fixStories_cons_empty hsc]; exact ih st
      · by_cases hds : d ∈ st.seen
        · rw [fixStories_cons_dup hsc hde hds]
          obtain ⟨t₁, t₂, h₁, h₂⟩ := ih { st with dups := st.dups ++ [d] }
          exact ⟨t₁, [d] ++ t₂, by simpa using h₁,
            by simpa [List.append_assoc] using h₂⟩
        · rw [fixStories_cons_fresh hsc hde hds]
          obtain ⟨t₁, t₂, h₁, h₂⟩ := ih { st with seen := st.seen ++ [d] }
          exact ⟨[d] ++ t₁, t₂, by simpa [List.append_assoc] using h₁,
            by simpa using h₂⟩

theorem find?_cons_code (c : String) (s : PlanStory) (rest : List PlanStory)
    (h : s.code ≠ some c) :
    (s :: rest).find? (fun s => decide (s.code = some c))
      = rest.find? (fun s => decide (s.code = some c)) := by
  rw [List.find?_cons]
  simp [h]

theorem find?_cons_code_pos (c : String) (s : PlanStory)
    (rest : List PlanStory) (h : s.code = some c) :
    (s :: rest).find? (fun s => decide (s.code = some c)) = some s := by
  rw [List.find?_cons]
  simp [h]

theorem find_fixStories (c : String) (hc : c ≠ "") :
    ∀ (l : List PlanStory) (st : FixState), c ∉ st.seen →
      (fixStories st l).2.find? (fun s => decide (s.code = some c)) =
        l.find? (fun s => decide (s.code = some c)) := by
  intro l
  induction l with
  | nil => intro st _; simp [fixStories]
  | cons s rest ih =>
    intro st hcs
    cases hsc : s.code with
    | none =>
      rw [fixStories_cons_none hsc, ih st hcs,
        find?_cons_code c s rest (by simp [hsc])]
    | some d =>
      by_cases hde : d = ""
      · subst hde
        rw [fixStories_cons_empty hsc, ih st hcs,
          find?_cons_code c s rest (by simp [hsc, Ne.symm hc])]
      · by_cases hds : d ∈ st.seen
        · have hdc : d ≠ c := fun h => hcs (h ▸ hds)
          rw [fixStories_cons_dup hsc hde hds,
            ih { st with dups := st.dups ++ [d] } hcs,
            find?_cons_code c s rest (by simp [hsc, hdc])]
        · rw [fixStories_cons_fresh hsc hde hds]
          by_cases hdc : d = c
          · subst hdc
            show List.find? _ (s :: _) = List.find? _ (s :: rest)
            rw [find?_cons_code_pos d s _ hsc, find?_cons_code_pos d s rest hsc]
          · have hcs' : c ∉ st.seen ++ [d] := by
              simp [hcs, Ne.symm hdc]
            show List.find? _ (s :: _) = List.find? _ (s :: rest)
            rw [find?_cons_code c s _ (by simp [hsc, hdc]),
              find?_cons_code c s rest (by simp [hsc, hdc]),
              ih { st with seen := st.seen ++ [d] } hcs']

theorem countC_fixStories_seen (c : String) (hc : c ≠ "")
    (l : List PlanStory) (st : FixState) (hcs : c ∈ st.seen) :
    countC c (fixStories st l).2 = 0 := by
  rw [countC_fixStories c hc, if_pos hcs]

theorem find_fixStories_seen (c : String) (hc : c ≠ "")
    (l : List PlanStory) (st : FixState) (hcs : c ∈ st.seen) :
    (fixStories st l).2.find? (fun s => decide (s.code = some c)) = none := by
  rw [List.find?_eq_none]
  intro x hx
  have h0 := countC_fixStories_seen c hc l st hcs
  have := List.countP_eq_zero.mp h0 x hx
  simpa using this

theorem mem_dups_fixStories_of_seen (c : String) (hc : c ≠ "") :
    ∀ (l : List PlanStory) (st : FixState), c ∈ st.seen → 1 ≤ countC c l →
      c ∈ (fixStories st l).1.dups := by
  intro l
  induction l with
  | nil => intro st _ hcount; rw [countC_nil] at hcount; omega
  | cons s rest ih =>
    intro st hcs hcount
    cases hsc : s.code with
    | none =>
      rw [countC_cons, hsc] at hcount
      rw [fixStories_cons_none hsc]
      refine ih st hcs ?_
      simp at hcount
      omega
    | some d =>
      rw [countC_cons, hsc] at hcount
      by_cases hde : d = ""
      · subst hde
        rw [fixStories_cons_empty hsc]
        refine ih st hcs ?_
        have hne : ¬((some "" : Option String) = some c) := by
          simp [Ne.symm hc]
        rw [if_neg hne] at hcount
        omega
      · by_cases hds : d ∈ st.seen
        · rw [fixStories_cons_dup hsc hde hds]
          by_cases hdc : d = c
          · subst hdc
            obtain ⟨t₁, t₂, _, h₂⟩ :=
              fixStories_state_append rest { st with dups := st.dups ++ [d] }
            rw [h₂]
            simp
          · have hne : ¬((some d : Option String) = some c) := by simp [hdc]
            rw [if_neg hne] at hcount
            exact ih { st with dups := st.dups ++ [d] } hcs hcount
        · have hdc : d ≠ c := fun h => hds (h ▸ hcs)
          rw [fixStories_cons_fresh hsc hde hds]
          have hne : ¬((some d : Option String) = some c) := by simp [hdc]
          rw [if_neg hne] at hcount
          show c ∈ (fixStories { st with seen := st.seen ++ [d] } rest).1.dups
          exact ih { st with seen := st.seen ++ [d] } (by simp [hcs]) hcount

theorem mem_dups_fixStories_of_two (c : String) (hc : c ≠ "") :
    ∀ (l : List PlanStory) (st : FixState), c ∉ st.seen → 2 ≤ countC c l →
      c ∈ (fixStories st l).1.dups := by
  intro l
  induction l with
  | nil => intro st _ hcount; rw [countC_nil] at hcount; omega
  | cons s rest ih =>
    intro st hcs hcount
    cases hsc : s.code with
    | none =>
      rw [countC_cons, hsc] at hcount
      rw [fixStories_cons_none hsc]
      refine ih st hcs ?_
      simp at hcount
      omega
    | some d =>
      rw [countC_cons, hsc] at hcount
      by_cases hde : d = ""
      · subst hde
        rw [fixStories_cons_empty hsc]
        refine ih st hcs ?_
        have hne : ¬((some "" : Option String) = some c) := by
          simp [Ne.symm hc]
        rw [if_neg hne] at hcount
        omega
      · by_cases hds : d ∈ st.seen
        · have hdc : d ≠ c := fun h => hcs (h ▸ hds)
          rw [fixStories_cons_dup hsc hde hds]
          have hne : ¬((some d : Option String) = some c) := by simp [hdc]
          rw [if_neg hne] at hcount
          exact ih { st with dups := st.dups ++ [d] } hcs hcount
        · rw [fixStories_cons_fresh hsc hde hds]
          by_cases hdc : d = c
          · subst hdc
            rw [if_pos rfl] at hcount
            show d ∈ (fixStories { st with seen := st.seen ++ [d] } rest).1.dups
            exact mem_dups_fixStories_of_seen d hc rest _ (by simp)
              (by omega)
          · have hne : ¬((some d : Option String) = some c) := by simp [hdc]
            rw [if_neg hne] at hcount
            show c ∈ (fixStories { st with seen := st.seen ++ [d] } rest).1.dups
            exact ih { st with seen := st.seen ++ [d] }
              (by simp [hcs, Ne.symm hdc]) hcount

theorem fixSprints_cons_snd (st : FixState) (sp : Sprint) (rest : List Sprint) :
    (fixSprints st (sp :: rest)).2
      = (fixSprint st sp).2 :: (fixSprints (fixStories st sp.stories).1 rest).2 :=
  rfl

theorem fixSprints_cons_fst (st : FixState) (sp : Sprint) (rest : List Sprint) :
    (fixSprints st (sp :: rest)).1
      = (fixSprints (fixStories st sp.stories).1 rest).1 :=
  rfl

theorem countCS_fixSprints (c : String) (hc : c ≠ "") :
    ∀ (l : List Sprint) (st : FixState),
      countCS c (fixSprints st l).2
        = if c ∈ st.seen then 0 else min 1 (countCS c l) := by
  intro l
  induction l with
  | nil =>
    intro st
    simp [fixSprints, countCS_nil]
  | cons sp rest ih =>
    intro st
    rw [fixSprints_cons_snd, countCS_cons, countCS_cons,
      show (fixSprint st sp).2.stories = (fixStories st sp.stories).2 from rfl,
      countC_fixStories c hc sp.stories st, ih]
    by_cases hcs : c ∈ st.seen
    · have h2 : c ∈ (fixStories st sp.stories).1.seen :=
        (mem_seen_fixStories c sp.stories st).mpr (Or.inl hcs)
      rw [if_pos hcs, if_pos hcs, if_pos h2]
    · rw [if_neg hcs, if_neg hcs]
      by_cases hp : 0 < countC c sp.stories
      · have h2 : c ∈ (fixStories st sp.stories).1.seen :=
          (mem_seen_fixStories c sp.stories st).mpr (Or.inr ⟨hc, hp⟩)
        rw [if_pos h2]
        omega
      · have h2 : c ∉ (fixStories st sp.stories).1.seen := by
          rw [mem_seen_fixStories c sp.stories st]
          simp [hcs]
          omega
        rw [if_neg h2]
        omega

theorem mem_seen_fixSprints (c : String) :
    ∀ (l : List Sprint) (st : FixState),
      c ∈ (fixSprints st l).1.seen ↔
        c ∈ st.seen ∨ (c ≠ "" ∧ 0 < countCS c l) := by
  intro l
  induction l with
  | nil => intro st; simp [fixSprints, countCS_nil]
  | cons sp rest ih =>
    intro st
    rw [fixSprints_cons_fst, ih, mem_seen_fixStories c sp.stories st,
      countCS_cons]
    constructor
    · rintro ((h | ⟨h1, h2⟩) | ⟨h1, h2⟩)
      · exact Or.inl h
      · exact Or.inr ⟨h1, by omega⟩
      · exact Or.inr ⟨h1, by omega⟩
    · rintro (h | ⟨h1, h2⟩)
      · exact Or.inl (Or.inl h)
      · by_cases hp : 0 < countC c sp.stories
        · exact Or.inl (Or.inr ⟨h1, hp⟩)
        · exact Or.inr ⟨h1, by omega⟩

theorem fixSprints_state_append :
    ∀ (l : List Sprint) (st : FixState),
      ∃ t₁ t₂, (fixSprints st l).1.seen = st.seen ++ t₁ ∧
               (fixSprints st l).1.dups = st.dups ++ t₂ := by
  intro l
  induction l with
  | nil => intro st; exact ⟨[], [], by simp [fixSprints], by simp [fixSprints]⟩
  | cons sp rest ih =>
    intro st
    rw [fixSprints_cons_fst]
    obtain ⟨a, b, ha, hb⟩ := fixStories_state_append sp.stories st
    obtain ⟨t₁, t₂, h₁, h₂⟩ := ih (fixStories st sp.stories).1
    exact ⟨a ++ t₁, b ++ t₂,
      by rw [h₁, ha, List.append_assoc],
      by rw [h₂, hb, List.append_assoc]⟩

theorem mem_dupsS_of_seen (c : String) (hc : c ≠ "") :
    ∀ (l : List Sprint) (st : FixState), c ∈ st.seen → 1 ≤ countCS c l →
      c ∈ (fixSprints st l).1.dups := by
  intro l
  induction l with
  | nil => intro st _ hcount; rw [countCS_nil] at hcount; omega
  | cons sp rest ih =>
    intro st hcs hcount
    rw [countCS_cons] at hcount
    rw [fixSprints_cons_fst]
    by_cases hp : 1 ≤ countC c sp.stories
    · have hdup : c ∈ (fixStories st sp.stories).1.dups :=
        mem_dups_fixStories_of_seen c hc sp.stories st hcs hp
      obtain ⟨t₁, t₂, _, h₂⟩ :=
        fixSprints_state_append rest (fixStories st sp.stories).1
      rw [h₂]
      exact List.mem_append_left _ hdup
    · have hcs' : c ∈ (fixStories st sp.stories).1.seen :=
        (mem_seen_fixStories c sp.stories st).mpr (Or.inl hcs)
      exact ih _ hcs' (by omega)

theorem mem_dupsS_of_two (c : String) (hc : c ≠ "") :
    ∀ (l : List Sprint) (st : FixState), c ∉ st.seen → 2 ≤ countCS c l →
      c ∈ (fixSprints st l).1.dups := by
  intro l
  induction l with
  | nil => intro st _ hcount; rw [countCS_nil] at hcount; omega
  | cons sp rest ih =>
    intro st hcs hcount
    rw [countCS_cons] at hcount
    rw [fixSprints_cons_fst]
    by_cases hp2 : 2 ≤ countC c sp.stories
    · have hdup : c ∈ (fixStories st sp.stories).1.dups :=
        mem_dups_fixStories_of_two c hc sp.stories st hcs hp2
      obtain ⟨t₁, t₂, _, h₂⟩ :=
        fixSprints_state_append rest (fixStories st sp.stories).1
      rw [h₂]
      exact List.mem_append_left _ hdup
    · by_cases hp1 : 1 ≤ countC c sp.stories
      · have hcs' : c ∈ (fixStories st sp.stories).1.seen :=
          (mem_seen_fixStories c sp.stories st).mpr (Or.inr ⟨hc, hp1⟩)
        exact mem_dupsS_of_seen c hc rest _ hcs' (by omega)
      · have hcs' : c ∉ (fixStories st sp.stories).1.seen := by
          rw [mem_seen_fixStories c sp.stories st]
          simp [hcs]
          omega
        exact ih _ hcs' (by omega)

theorem fixSprints_inv :
    ∀ (l : List Sprint) (st : FixState),
      ∀ sp ∈ (fixSprints st l).2,
        sp.story_points_planned = sumPoints sp.stories ∧
        sp.capacity_used_percentage = capacityPct sp.story_points_planned := by
  intro l
  induction l with
  | nil => intro st sp h; simp [fixSprints] at h
  | cons sp0 rest ih =>
    intro st sp h
    rw [fixSprints_cons_snd] at h
    rcases List.mem_cons.mp h with h | h
    · subst h
      exact ⟨rfl, rfl⟩
    · exact ih _ sp h

theorem fixSprints_length :
    ∀ (l : List Sprint) (st : FixState),
      (fixSprints st l).2.length = l.length := by
  intro l
  induction l with
  | nil => intro st; rfl
  | cons sp rest ih =>
    intro st
    rw [fixSprints_cons_snd, List.length_cons, List.length_cons, ih]

theorem countCS_eq_flatten (c : String) :
    ∀ (l : List Sprint),
      countCS c l = countC c ((l.map (fun sp => sp.stories)).flatten) := by
  intro l
  induction l with
  | nil => rfl
  | cons sp rest ih =>
    rw [countCS_cons, List.map_cons, List.flatten_cons, countC_append, ih]

theorem firstStory_cons (c : String) (sp : Sprint) (rest : List Sprint) :
    firstStory c (sp :: rest)
      = (sp.stories.find? (fun s => decide (s.code = some c))).or
          (firstStory c rest) := by
  simp only [firstStory, List.map_cons, List.flatten_cons]
  rw [List.find?_append]

theorem firstStory_fixSprints (c : String) (hc : c ≠ "") :
    ∀ (l : List Sprint) (st : FixState), c ∉ st.seen →
      firstStory c (fixSprints st l).2 = firstStory c l := by
  intro l
  induction l with
  | nil => intro st _; rfl
  | cons sp rest ih =>
    intro st hcs
    rw [fixSprints_cons_snd, firstStory_cons, firstStory_cons,
      show (fixSprint st sp).2.stories = (fixStories st sp.stories).2 from rfl,
      find_fixStories c hc sp.stories st hcs]
    by_cases hp : 0 < countC c sp.stories
    · have : ∃ x ∈ sp.stories, (fun s => decide (s.code = some c)) x = true := by
        have := List.countP_pos_iff.mp hp
        simpa [countC] using List.countP_pos_iff.mp hp
      obtain ⟨a, ha⟩ := Option.isSome_iff_exists.mp (List.find?_isSome.mpr this)
      rw [ha]
      rfl
    · have hnone : sp.stories.find? (fun s => decide (s.code = some c)) = none := by
        rw [List.find?_eq_none]
        intro x hx hpx
        refine hp ?_
        refine List.countP_pos_iff.mpr ⟨x, hx, hpx⟩
      rw [hnone, Option.none_or, Option.none_or]
      have hcs' : c ∉ (fixStories st sp.stories).1.seen := by
        rw [mem_seen_fixStories c sp.stories st]
        simp [hcs]
        omega
      exact ih _ hcs'

theorem countCS_updateLast (c : String) (app : List PlanStory)
    (f : Sprint → Sprint) (hf : ∀ sp, (f sp).stories = sp.stories ++ app) :
    ∀ (l : List Sprint), l ≠ [] →
      countCS c (updateLast f l) = countCS c l + countC c app := by
  intro l
  induction l with
  | nil => intro h; cases h rfl
  | cons sp rest ih =>
    intro _
    cases rest with
    | nil =>
      show countCS c [f sp] = countCS c [sp] + countC c app
      simp only [countCS_cons, countCS_nil, hf, countC_append]
      omega
    | cons sp2 rest2 =>
      show countCS c (sp :: updateLast f (sp2 :: rest2)) = _
      rw [countCS_cons, countCS_cons, ih (by simp)]
      omega

theorem inv_updateLast (P : Sprint → Prop) (f : Sprint → Sprint)
    (hP : ∀ sp, P (f sp)) :
    ∀ (l : List Sprint), (∀ sp ∈ l, P sp) → ∀ sp ∈ updateLast f l, P sp := by
  intro l
  induction l with
  | nil => intro _ sp h; cases h
  | cons sp0 rest ih =>
    intro hl sp h
    cases rest with
    | nil =>
      rcases List.mem_cons.mp h with h | h
      · subst h; exact hP sp0
      · cases h
    | cons sp2 rest2 =>
      rcases List.mem_cons.mp h with h | h
      · subst h; exact hl sp (List.mem_cons_self _ _)
      · exact ih (fun x hx => hl x (List.mem_cons_of_mem _ hx)) sp h

theorem flatten_updateLast (app : List PlanStory) (f : Sprint → Sprint)
    (hf : ∀ sp, (f sp).stories = sp.stories ++ app) :
    ∀ (l : List Sprint), l ≠ [] →
      ((updateLast f l).map (fun sp => sp.stories)).flatten
        = (l.map (fun sp => sp.stories)).flatten ++ app := by
  intro l
  induction l with
  | nil => intro h; cases h rfl
  | cons sp rest ih =>
    intro _
    cases rest with
    | nil =>
      show (([f sp].map (fun sp => sp.stories)).flatten) = _
      simp [hf]
    | cons sp2 rest2 =>
      show ((sp :: updateLast f (sp2 :: rest2)).map
        (fun sp => sp.stories)).flatten = _
      rw [List.map_cons, List.flatten_cons, ih (by simp)]
      simp [List.append_assoc]

theorem find?_story_code (stories : List UserStory) (m : String)
    (h : m ∈ stories.map (·.code)) :
    ∃ s, stories.find? (fun s => decide (s.code = m)) = some s ∧
      s.code = m := by
  have hex : ∃ x ∈ stories, (fun s => decide (s.code = m)) x = true := by
    obtain ⟨a, ha, hcode⟩ := List.mem_map.mp h
    exact ⟨a, ha, by simp [hcode]⟩
  obtain ⟨s, hs⟩ := Option.isSome_iff_exists.mp (List.find?_isSome.mpr hex)
  exact ⟨s, hs, by simpa using List.find?_some hs⟩

theorem countC_appendedStories (stories : List UserStory) (c : String) :
    ∀ (ms : List String), ms.Nodup → (∀ m ∈ ms, m ∈ stories.map (·.code)) →
      countC c (appendedStories stories ms) = if c ∈ ms then 1 else 0 := by
  intro ms
  induction ms with
  | nil => intro _ _; simp [appendedStories, countC_nil]
  | cons m ms ih =>
    intro hnd hmem
    obtain ⟨hm, hnd'⟩ := List.nodup_cons.mp hnd
    obtain ⟨s, hs, hcode⟩ :=
      find?_story_code stories m (hmem m (List.mem_cons_self _ _))
    have hstep : appendedStories stories (m :: ms)
        = toPlanStory s :: appendedStories stories ms := by
      simp [appendedStories, List.filterMap_cons, hs]
    rw [hstep, countC_cons,
      ih hnd' (fun x hx => hmem x (List.mem_cons_of_mem _ hx))]
    by_cases hcm : c = m
    · subst hcm
      rw [if_neg hm, if_pos (List.mem_cons_self _ _)]
      simp [toPlanStory, hcode]
    · have h1 : ¬((toPlanStory s).code = some c) := by
        simp [toPlanStory, hcode, Ne.symm hcm]
      have h2 : (c ∈ m :: ms) ↔ c ∈ ms := by simp [hcm]
      rw [if_neg h1, if_congr h2 rfl rfl]
      omega

theorem missingCodes_nodup (stories : List UserStory) (included : List String) :
    (missingCodes stories included).Nodup :=
  List.nodup_dedup _

theorem mem_missingCodes (stories : List UserStory) (included : List String)
    (c : String) :
    c ∈ missingCodes stories included ↔
      c ∈ stories.map (·.code) ∧ c ∉ included := by
  simp [missingCodes, List.mem_dedup, List.mem_filter]

theorem checkAndFix_sprints (plan : Plan) (stories : List UserStory) :
    (checkAndFixDuplicateStories plan stories).corrected_plan.sprints
      = appendMissing stories (fixSprints ⟨[], []⟩ plan.sprints).1.seen
          (fixSprints ⟨[], []⟩ plan.sprints).2 :=
  rfl

theorem countCS_checkAndFix (plan : Plan) (stories : List UserStory)
    (c : String) (hc : c ≠ "") :
    countCS c (checkAndFixDuplicateStories plan stories).corrected_plan.sprints
      = min 1 (countCS c plan.sprints) +
        (if plan.sprints ≠ [] ∧
            c ∈ missingCodes stories (fixSprints ⟨[], []⟩ plan.sprints).1.seen
          then 1 else 0) := by
  rw [checkAndFix_sprints]
  have hbase : countCS c (fixSprints ⟨[], []⟩ plan.sprints).2
      = min 1 (countCS c plan.sprints) := by
    rw [countCS_fixSprints c hc plan.sprints ⟨[], []⟩]
    rw [if_neg (by simp : c ∉ FixState.seen ⟨[], []⟩)]
  by_cases hm : missingCodes stories (fixSprints ⟨[], []⟩ plan.sprints).1.seen = []
  · rw [appendMissing, if_pos hm, hbase, hm]
    simp
  · rw [appendMissing, if_neg hm]
    by_cases hps : plan.sprints = []
    · have h2 : (fixSprints ⟨[], []⟩ plan.sprints).2 = [] := by
        rw [hps]; rfl
      rw [h2]
      show countCS c [] = _
      rw [countCS_nil, hps]
      simp [countCS_nil]
    · have hne : (fixSprints ⟨[], []⟩ plan.sprints).2 ≠ [] := by
        intro h
        have hl := fixSprints_length plan.sprints ⟨[], []⟩
        rw [h] at hl
        exact hps (List.length_eq_zero.mp hl.symm)
      rw [countCS_updateLast c
        (appendedStories stories
          (missingCodes stories (fixSprints ⟨[], []⟩ plan.sprints).1.seen))
        (appendToSprint (appendedStories stories
          (missingCodes stories (fixSprints ⟨[], []⟩ plan.sprints).1.seen)))
        (fun sp => rfl) _ hne, hbase,
        countC_appendedStories stories c _
          (missingCodes_nodup _ _)
          (fun m hm' => ((mem_missingCodes _ _ m).mp hm').1)]
      have hcond : (plan.sprints ≠ [] ∧
          c ∈ missingCodes stories (fixSprints ⟨[], []⟩ plan.sprints).1.seen) ↔
          c ∈ missingCodes stories (fixSprints ⟨[], []⟩ plan.sprints).1.seen := by
        simp [hps]
      rw [if_congr hcond rfl rfl]

theorem not_seen_of_missing (plan : Plan) (stories : List UserStory)
    (c : String)
    (hm : c ∈ missingCodes stories (fixSprints ⟨[], []⟩ plan.sprints).1.seen) :
    c ∉ (fixSprints ⟨[], []⟩ plan.sprints).1.seen :=
  ((mem_missingCodes _ _ c).mp hm).2

theorem countCS_zero_of_missing (plan : Plan) (stories : List UserStory)
    (c : String) (hc : c ≠ "")
    (hm : c ∈ missingCodes stories (fixSprints ⟨[], []⟩ plan.sprints).1.seen) :
    countCS c plan.sprints = 0 := by
  by_contra h
  exact not_seen_of_missing plan stories c hm
    ((mem_seen_fixSprints c plan.sprints ⟨[], []⟩).mpr
      (Or.inr ⟨hc, by omega⟩))

theorem countCS_checkAndFix_le_one (plan : Plan) (stories : List UserStory)
    (c : String) (hc : c ≠ "") :
    countCS c
      (checkAndFixDuplicateStories plan stories).corrected_plan.sprints ≤ 1 := by
  rw [countCS_checkAndFix plan stories c hc]
  by_cases hm : c ∈ missingCodes stories (fixSprints ⟨[], []⟩ plan.sprints).1.seen
  · have h0 := countCS_zero_of_missing plan stories c hc hm
    rw [h0]
    split <;> omega
  · have : ¬(plan.sprints ≠ [] ∧
        c ∈ missingCodes stories (fixSprints ⟨[], []⟩ plan.sprints).1.seen) := by
      simp [hm]
    rw [if_neg this]
    omega

theorem countCS_checkAndFix_covered (plan : Plan) (stories : List UserStory)
    (hsp : plan.sprints ≠ []) (s : UserStory) (hs : s ∈ stories)
    (hcode : s.code ≠ "") :
    countCS s.code
      (checkAndFixDuplicateStories plan stories).corrected_plan.sprints = 1 := by
  rw [countCS_checkAndFix plan stories s.code hcode]
  by_cases hseen : s.code ∈ (fixSprints ⟨[], []⟩ plan.sprints).1.seen
  · have hpos : 0 < countCS s.code plan.sprints := by
      rcases (mem_seen_fixSprints s.code plan.sprints ⟨[], []⟩).mp hseen with
        h | ⟨_, h⟩
      · simp at h
      · exact h
    have hnm : ¬(plan.sprints ≠ [] ∧
        s.code ∈ missingCodes stories (fixSprints ⟨[], []⟩ plan.sprints).1.seen) := by
      intro ⟨_, hmm⟩
      exact not_seen_of_missing plan stories s.code hmm hseen
    rw [if_neg hnm]
    omega
  · have hmm : s.code ∈ missingCodes stories
        (fixSprints ⟨[], []⟩ plan.sprints).1.seen := by
      rw [mem_missingCodes]
      exact ⟨List.mem_map.mpr ⟨s, hs, rfl⟩, hseen⟩
    have h0 : countCS s.code plan.sprints = 0 := by
      by_contra h
      exact hseen ((mem_seen_fixSprints s.code plan.sprints ⟨[], []⟩).mpr
        (Or.inr ⟨hcode, by omega⟩))
    rw [h0, if_pos ⟨hsp, hmm⟩]
    omega

theorem countCS_le_one_of_no_dups (sprints : List Sprint)
    (hd : (fixSprints ⟨[], []⟩ sprints).1.dups = []) (c : String)
    (hc : c ≠ "") : countCS c sprints ≤ 1 := by
  by_contra h
  have := mem_dupsS_of_two c hc sprints ⟨[], []⟩ (by simp) (by omega)
  rw [hd] at this
  cases this

theorem checkAndFix_inv (plan : Plan) (stories : List UserStory) :
    ∀ sp ∈ (checkAndFixDuplicateStories plan stories).corrected_plan.sprints,
      sp.story_points_planned = sumPoints sp.stories ∧
      sp.capacity_used_percentage = capacityPct sp.story_points_planned := by
  rw [checkAndFix_sprints]
  rw [appendMissing]
  split
  · exact fixSprints_inv plan.sprints ⟨[], []⟩
  · exact inv_updateLast _ _ (fun sp => ⟨rfl, rfl⟩) _
      (fixSprints_inv plan.sprints ⟨[], []⟩)

theorem firstStory_isSome (c : String) (l : List Sprint)
    (h : 0 < countCS c l) : (firstStory c l).isSome := by
  rw [countCS_eq_flatten] at h
  simp only [countC] at h
  rw [firstStory]
  exact List.find?_isSome.mpr (List.countP_pos_iff.mp h)

theorem firstStory_checkAndFix (plan : Plan) (stories : List UserStory)
    (c : String) (hc : c ≠ "") (hpos : 0 < countCS c plan.sprints) :
    firstStory c
        (checkAndFixDuplicateStories plan stories).corrected_plan.sprints
      = firstStory c plan.sprints := by
  rw [checkAndFix_sprints, appendMissing]
  have hfix : firstStory c (fixSprints ⟨[], []⟩ plan.sprints).2
      = firstStory c plan.sprints :=
    firstStory_fixSprints c hc plan.sprints ⟨[], []⟩ (by simp)
  split
  · exact hfix
  · have hne : (fixSprints ⟨[], []⟩ plan.sprints).2 ≠ [] := by
      intro h
      have hl := fixSprints_length plan.sprints ⟨[], []⟩
      rw [h] at hl
      have hnil : plan.sprints = [] := List.length_eq_zero.mp hl.symm
      rw [hnil, countCS_nil] at hpos
      omega
    have hsome : ∃ a, firstStory c (fixSprints ⟨[], []⟩ plan.sprints).2
        = some a := by
      apply Option.isSome_iff_exists.mp
      apply firstStory_isSome
      rw [countCS_fixSprints c hc plan.sprints ⟨[], []⟩,
        if_neg (by simp : c ∉ FixState.seen ⟨[], []⟩)]
      omega
    obtain ⟨a, ha⟩ := hsome
    show firstStory c (updateLast _ (fixSprints ⟨[], []⟩ plan.sprints).2) = _
    rw [firstStory, flatten_updateLast _ _ (fun sp => rfl) _ hne,
      List.find?_append]
    rw [firstStory] at ha
    rw [ha, show ∀ x : Option PlanStory, (some a).or x = some a
      from fun _ => rfl]
    rw [← firstStory] at ha
    exact (hfix.symm.trans ha).symm

/-- Claim C4: for every plan in which some story code appears more than once,
`_check_and_fix_duplicate_stories` keeps exactly the first occurrence (in
sprint order) of each code appearing in the plan, drops every later
occurrence, and sets every sprint's `story_points_planned` (and capacity) to
the totals of the stories of that sprint in the repaired plan: every
occurring code survives exactly once, the surviving story is the first one in
sprint-major order, and every repaired sprint's totals match its story
list. -/
theorem duplicate_repair_first_occurrence (plan : Plan)
    (stories : List UserStory)
    (_hdup : ∃ c, c ≠ "" ∧ 2 ≤ countCS c plan.sprints) :
    (∀ sp ∈ (checkAndFixDuplicateStories plan stories).corrected_plan.sprints,
        sp.story_points_planned = sumPoints sp.stories ∧
        sp.capacity_used_percentage = capacityPct sp.story_points_planned) ∧
    (∀ c, c ≠ "" → 0 < countCS c plan.sprints →
        countCS c
          (checkAndFixDuplicateStories plan stories).corrected_plan.sprints
          = 1 ∧
        firstStory c
          (checkAndFixDuplicateStories plan stories).corrected_plan.sprints
          = firstStory c plan.sprints) := by
  refine ⟨checkAndFix_inv plan stories, ?_⟩
  intro c hc hpos
  constructor
  · have hseen : c ∈ (fixSprints ⟨[], []⟩ plan.sprints).1.seen :=
      (mem_seen_fixSprints c plan.sprints ⟨[], []⟩).mpr (Or.inr ⟨hc, hpos⟩)
    rw [countCS_checkAndFix plan stories c hc]
    have hnm : ¬(plan.sprints ≠ [] ∧
        c ∈ missingCodes stories (fixSprints ⟨[], []⟩ plan.sprints).1.seen) :=
      fun ⟨_, hm⟩ => not_seen_of_missing plan stories c hm hseen
    rw [if_neg hnm]
    omega
  · exact firstStory_checkAndFix plan stories c hc hpos

/-- Witness for C4 at a concrete plan with code `A` in sprint 1 and sprint 2:
after repair `A` appears exactly once and the kept story is the original
first occurrence. -/
theorem duplicate_repair_first_occurrence_witness :
    countCS "A"
      (checkAndFixDuplicateStories exPlanDup [exStoryA]).corrected_plan.sprints
      = 1 ∧
    firstStory "A"
      (checkAndFixDuplicateStories exPlanDup [exStoryA]).corrected_plan.sprints
      = firstStory "A" exPlanDup.sprints := by
  have h := (duplicate_repair_first_occurrence exPlanDup [exStoryA]
    ⟨"A", by decide, by decide⟩).2 "A" (by decide) (by decide)
  exact ⟨h.1, h.2⟩

/-- Claim C5 (amended): after duplicate repair every sprint's
`capacity_used_percentage` equals `min 100 (points * 100 / 30)` — computed
with the *hardcoded* default velocity 30 of
`_check_and_fix_duplicate_stories`, not with the project's configured team
velocity (the `team_velocity > 0` guard is vacuous for the constant 30). -/
theorem capacity_formula_after_repair (plan : Plan)
    (stories : List UserStory) :
    ∀ sp ∈ (checkAndFixDuplicateStories plan stories).corrected_plan.sprints,
      sp.capacity_used_percentage
        = min 100 (sp.story_points_planned * 100 / 30) := by
  intro sp hsp
  rw [(checkAndFix_inv plan stories sp hsp).2]
  rfl

/-- Witness for C5 (amended) at the concrete repaired plan: the first
repaired sprint holds 7 points and capacity `min 100 (700/30) = 23`. -/
theorem capacity_formula_after_repair_witness :
    (⟨1, none, 7, 23, [exPsA]⟩ : Sprint).capacity_used_percentage
      = min 100 ((⟨1, none, 7, 23, [exPsA]⟩ : Sprint).story_points_planned
          * 100 / 30) :=
  capacity_formula_after_repair exPlanDup [exStoryA] _ (by decide)

/-- Counterexample to C5 as stated: with a *configured* team velocity of 10
and a repaired sprint holding 7 points, the claimed formula gives
`min 100 (7·100/10) = 70`, but the repair stores
`min 100 (7·100/30) = 23` because the velocity is hardcoded to 30. -/
theorem capacity_uses_hardcoded_velocity :
    ((checkAndFixDuplicateStories exPlanDup [exStoryA]).corrected_plan.sprints.map
      (fun sp => sp.capacity_used_percentage)) = [23, 0] ∧
    min 100 (7 * 100 / exCfgV10.team_velocity) = 70 ∧ (23 : Nat) ≠ 70 := by
  refine ⟨by decide, by decide, by decide⟩

/-- Counterexample to C1 as stated: a generated plan whose only story carries
the unknown code `X` while the project's single story is `A` is persisted
unchanged by a successful `generate_release_plan` run — the story-entry count
matches so no regeneration fires, no duplicate exists so the repaired plan is
discarded, and the stored plan neither contains `A` nor drops `X`: its
story-code multiset is not the project's story-code set. -/
theorem coverage_claim_false :
    generateReleasePlan (some exCfgV10) [exStoryA] (.ok exPlanStray) none
      = .ok exPlanStray ∧
    countCS "A" exPlanStray.sprints = 0 ∧
    countCS "X" exPlanStray.sprints = 1 := by
  refine ⟨rfl, by decide, by decide⟩

/-- Claim C1 (amended): a successfully persisted release plan never carries
the same (nonempty) story code twice; and *when* the plan reaching the
duplicate check actually contains duplicates (so the repaired plan is the one
persisted) and has at least one sprint, every project story code appears in
it exactly once.  Without a detected duplicate the generated plan is
persisted as-is, so codes missing from it stay missing, and codes outside
the project story set are retained in both cases. -/
theorem coverage_after_pipeline :
    ∀ (config : ProjectConfig) (stories : List UserStory) (plan0 : Plan)
      (regen : Option Plan) (out : Plan),
      generateReleasePlan (some config) stories (.ok plan0) regen = .ok out →
      (∀ c, c ≠ "" → countCS c out.sprints ≤ 1) ∧
      ((checkAndFixDuplicateStories
          (planBeforeDupCheck config stories plan0 regen)
          stories).duplicates_found = true →
        (planBeforeDupCheck config stories plan0 regen).sprints ≠ [] →
        ∀ s ∈ stories, s.code ≠ "" → countCS s.code out.sprints = 1) := by
  intro config stories plan0 regen out h
  simp only [generateReleasePlan, generateReleasePlanBody] at h
  split at h
  · rename_i x p heq
    simp only [Except.ok.injEq] at h
    subst h
    split at heq
    · exact Except.noConfusion heq
    · split at heq
      · rename_i hfound
        simp only [Except.ok.injEq] at heq
        subst heq
        constructor
        · intro c hc
          exact countCS_checkAndFix_le_one
            (planBeforeDupCheck config stories plan0 regen) stories c hc
        · intro _ hsp s hsmem hscode
          exact countCS_checkAndFix_covered
            (planBeforeDupCheck config stories plan0 regen) stories hsp s
            hsmem hscode
      · rename_i hfound
        simp only [Except.ok.injEq] at heq
        subst heq
        constructor
        · intro c hc
          have hd : (fixSprints ⟨[], []⟩
              (planBeforeDupCheck config stories plan0 regen).sprints).1.dups
              = [] := by
            simpa [checkAndFixDuplicateStories] using hfound
          exact countCS_le_one_of_no_dups _ hd c hc
        · intro hdupfound _ _ _ _
          exact absurd hdupfound hfound
  · exact Except.noConfusion h

/-- Witness for C1 (amended) at a concrete duplicated plan: the pipeline
persists the repaired plan and the single project code `A` appears exactly
once. -/
theorem coverage_after_pipeline_witness :
    generateReleasePlan (some exCfgV10) [exStoryA] (.ok exPlanDup) none
      = .ok ⟨none, [⟨1, none, 7, 23, [exPsA]⟩, ⟨2, none, 0, 0, []⟩], [],
          ["Se corrigieron historias duplicadas en el plan generado"]⟩ ∧
    countCS "A" (Plan.sprints ⟨none, [⟨1, none, 7, 23, [exPsA]⟩,
        ⟨2, none, 0, 0, []⟩], [],
        ["Se corrigieron historias duplicadas en el plan generado"]⟩) = 1 := by
  constructor
  · rfl
  · exact (coverage_after_pipeline exCfgV10 [exStoryA] exPlanDup none
      ⟨none, [⟨1, none, 7, 23, [exPsA]⟩, ⟨2, none, 0, 0, []⟩], [],
        ["Se corrigieron historias duplicadas en el plan generado"]⟩ rfl).2
      (by decide) (by decide) exStoryA (by decide) (by decide)

/-- Claim C2: the missing-config and zero-stories preconditions do raise
`HTTPException(404, ...)` inside the body of `generate_release_plan` — but
the surrounding `except Exception` clause re-raises them as
`HTTPException(500, "Error generando plan de release: ...")`, so the status
the caller observes is 500, not 404, in both cases. -/
theorem notFound_wrapped_as_500 :
    generateReleasePlanBody none [exStoryA] (.ok exEmptyPlan) none
      = .error ⟨404,
        "Configuración del proyecto no encontrada. Configure el proyecto primero."⟩ ∧
    generateReleasePlanBody (some exCfgV10) [] (.ok exEmptyPlan) none
      = .error ⟨404,
        "No se encontraron historias de usuario para este proyecto."⟩ ∧
    generateReleasePlan none [exStoryA] (.ok exEmptyPlan) none
      = .error ⟨500,
        "Error generando plan de release: 404: Configuración del proyecto no encontrada. Configure el proyecto primero."⟩ ∧
    generateReleasePlan (some exCfgV10) [] (.ok exEmptyPlan) none
      = .error ⟨500,
        "Error generando plan de release: 404: No se encontraron historias de usuario para este proyecto."⟩ :=
  ⟨rfl, rfl, rfl, rfl⟩

/-- Counterexample to C3 as stated: when the last sprint ends exactly on the
target date, the viability helper does compute the MEDIUM buffer risk, but
the merge in `generate_release_plan` only fires for non-viable plans, so the
stored plan gains nothing — it is returned unchanged, without the MEDIUM
risk. -/
theorem equal_deadline_no_medium_risk_added :
    (validateGeneratedPlanViability (exPlanEnd 100) (exCfgTarget 100)).risks
      = [mediumRisk] ∧
    applyViability (exPlanEnd 100)
        (validateGeneratedPlanViability (exPlanEnd 100) (exCfgTarget 100))
      = exPlanEnd 100 :=
  ⟨rfl, rfl⟩

/-- Claim C3 (amended): with parseable dates, if the last sprint ends
strictly after the target date the stored plan gains the CRITICAL risk and
(when a `project_analysis` block exists) `target_date_feasible` is forced to
`false`; if it ends exactly on the target date the plan is stored unchanged —
the computed MEDIUM risk is discarded because only non-viable results are
merged; if it ends strictly before, the plan is unchanged. -/
theorem deadline_classification :
    ∀ (plan : Plan) (config : ProjectConfig) (last : Sprint) (e t : Nat),
      plan.sprints.getLast? = some last → last.end_date = some e →
      config.release_target_date = some t →
      (t < e →
        (applyViability plan
            (validateGeneratedPlanViability plan config)).risks
          = plan.risks ++ [criticalRisk (e - t)] ∧
        (∀ pa, plan.project_analysis = some pa →
          (applyViability plan
              (validateGeneratedPlanViability plan config)).project_analysis
            = some { target_date_feasible := false,
                     recommended_adjustments := pa.recommended_adjustments ++
                       ["Reducir el alcance del proyecto o extender la fecha objetivo",
                        "Aumentar la velocidad del equipo",
                        "Reorganizar las historias en los sprints"] })) ∧
      (e = t →
        applyViability plan (validateGeneratedPlanViability plan config)
          = plan) ∧
      (e < t →
        applyViability plan (validateGeneratedPlanViability plan config)
          = plan) := by
  intro plan config last e t hlast hend htarget
  refine ⟨?_, ?_, ?_⟩
  · intro hlt
    simp only [validateGeneratedPlanViability, hlast, htarget, hend,
      if_pos hlt]
    constructor
    · simp [applyViability]
    · intro pa hpa
      simp [applyViability, hpa]
  · intro heq
    have hnlt : ¬ t < e := by omega
    simp only [validateGeneratedPlanViability, hlast, htarget, hend,
      if_neg hnlt, if_pos heq]
    simp [applyViability]
  · intro hlt
    have h1 : ¬ t < e := by omega
    have h2 : ¬ e = t := by omega
    simp only [validateGeneratedPlanViability, hlast, htarget, hend,
      if_neg h1, if_neg h2]
    simp [applyViability]

/-- Witness for C3 (amended) at a plan overrunning the target by 14 days: the
stored plan gains the CRITICAL risk and its feasibility flag is cleared. -/
theorem deadline_classification_witness :
    (applyViability (exPlanEnd 114)
        (validateGeneratedPlanViability (exPlanEnd 114)
          (exCfgTarget 100))).risks = [criticalRisk 14] ∧
    (applyViability (exPlanEnd 114)
        (validateGeneratedPlanViability (exPlanEnd 114)
          (exCfgTarget 100))).project_analysis
      = some ⟨false,
          ["Reducir el alcance del proyecto o extender la fecha objetivo",
           "Aumentar la velocidad del equipo",
           "Reorganizar las historias en los sprints"]⟩ := by
  have h := (deadline_classification (exPlanEnd 114) (exCfgTarget 100)
    ⟨1, some 114, 7, 50, [exPsA]⟩ 114 100 rfl rfl rfl).1 (by omega)
  constructor
  · rw [h.1]
    rfl
  · have h2 := h.2 ⟨true, []⟩ rfl
    rw [h2]
    rfl

theorem processBlock_shape (parseOk : List Char → Bool)
    (fixA fixB : List Char → List Char) (s : List Char) (a b : Nat) :
    (∃ j, processBlock parseOk fixA fixB s a b = .json j) ∨
    (∃ e, processBlock parseOk fixA fixB s a b = .errorFull e ∧
      e.error = "La IA no devolvió un JSON válido" ∧
      e.error_details = "JSON extraído del markdown no válido" ∧
      e.response_length = s.length ∧ e.preview.length ≤ 503) := by
  simp only [processBlock]
  split
  · exact Or.inl ⟨_, rfl⟩
  · split
    · exact Or.inl ⟨_, rfl⟩
    · split
      · exact Or.inl ⟨_, rfl⟩
      · refine Or.inr ⟨_, rfl, rfl, rfl, rfl, ?_⟩
        have h3 : ("...".data).length = 3 := rfl
        simp only [List.length_append, List.length_take]
        split
        · rw [h3]; omega
        · simp only [List.length_nil]; omega

theorem lastResort_shape (s : List Char) :
    ∃ e, lastResort s = .errorFull e ∧
      e.error = "La IA no devolvió un JSON válido" ∧
      e.error_details = "No se pudo extraer JSON válido de la respuesta" ∧
      e.response_length = s.length ∧ e.preview.length ≤ 503 := by
  refine ⟨_, rfl, rfl, rfl, rfl, ?_⟩
  have h3 : ("...".data).length = 3 := rfl
  simp only [List.length_append, List.length_take]
  split
  · rw [h3]; omega
  · simp only [List.length_nil]; omega

theorem directSearch_shape (parseOk : List Char → Bool) (s : List Char) :
    (∃ j, directSearch parseOk s = .json j) ∨
    (∃ e, directSearch parseOk s = .errorFull e ∧
      e.error = "La IA no devolvió un JSON válido" ∧
      e.error_details = "No se pudo extraer JSON válido de la respuesta" ∧
      e.response_length = s.length ∧ e.preview.length ≤ 503) := by
  simp only [directSearch]
  split
  · split
    · split
      · exact Or.inl ⟨_, rfl⟩
      · exact Or.inr (lastResort_shape s)
    · exact Or.inr (lastResort_shape s)
  · exact Or.inr (lastResort_shape s)

/-- Claim C9 (amended): `_clean_ai_response` is total — for every input it
returns either extracted JSON text or a structured error object, never
raising.  For inputs that are nonempty after trimming, a failure carries the
error tag, one of the two diagnostic messages, the (trimmed) input length and
a preview bounded by 503 characters; an empty or whitespace-only input
returns the bare `{"error": ...}` object carrying only the tag.  The final
conjunct evaluates the extractor on the spec's P8 input
`"no json here at all"`, yielding the full structured error object. -/
theorem extractor_total_shape :
    (∀ (parseOk : List Char → Bool) (fixA fixB : List Char → List Char)
        (raw : List Char),
      (stripWs raw = [] ∧
        cleanAiResponse parseOk fixA fixB raw
          = .errorEmpty "Respuesta vacía de la IA") ∨
      (∃ j, cleanAiResponse parseOk fixA fixB raw = .json j) ∨
      (∃ e, cleanAiResponse parseOk fixA fixB raw = .errorFull e ∧
        e.error = "La IA no devolvió un JSON válido" ∧
        (e.error_details = "JSON extraído del markdown no válido" ∨
          e.error_details = "No se pudo extraer JSON válido de la respuesta") ∧
        e.response_length = (stripWs raw).length ∧
        e.preview.length ≤ 503)) ∧
    cleanAiResponse (fun _ => false) id id ("no json here at all".data)
      = .errorFull ⟨"La IA no devolvió un JSON válido",
          "No se pudo extraer JSON válido de la respuesta", 19,
          "no json here at all".data⟩ := by
  constructor
  · intro parseOk fixA fixB raw
    by_cases hsr : stripWs raw = []
    · exact Or.inl ⟨hsr, by simp [cleanAiResponse, hsr]⟩
    · right
      simp only [cleanAiResponse, if_neg hsr]
      split
      · rcases processBlock_shape parseOk fixA fixB (stripWs raw) _ _ with
          ⟨j, hj⟩ | ⟨e, he, h1, h2, h3, h4⟩
        · exact Or.inl ⟨j, hj⟩
        · exact Or.inr ⟨e, he, h1, Or.inl h2, h3, h4⟩
      · rcases directSearch_shape parseOk (stripWs raw) with
          ⟨j, hj⟩ | ⟨e, he, h1, h2, h3, h4⟩
        · exact Or.inl ⟨j, hj⟩
        · exact Or.inr ⟨e, he, h1, Or.inr h2, h3, h4⟩
  · decide

/-- Counterexample to C9 as stated: on empty (or whitespace-only) input the
extractor returns the bare `{"error": "Respuesta vacía de la IA"}` object,
which carries no diagnostic message, no input length and no preview — the
parse oracle is never consulted on this path. -/
theorem empty_input_bare_error :
    cleanAiResponse (fun _ => false) id id []
      = .errorEmpty "Respuesta vacía de la IA" ∧
    cleanAiResponse (fun _ => false) id id (" \n ".data)
      = .errorEmpty "Respuesta vacía de la IA" := by
  constructor
  · rfl
  · decide
